import Mathlib

/-!
Shallow embedding of `pyroomacoustics/datasets/base.py`: the `Meta` metadata
class, the `SampleBase`/`AudioSample` sample wrappers and the `CorpusBase`
corpus container, together with proofs about their matching, filtering,
tallying and indexing behaviour.
-/

namespace PyRoom

/-- Scalar metadata values (strings and numbers, per the data model:
metadata fields hold hashable scalars such as `'alice'` or `37`). -/
inductive Value where
  | s : String → Value
  | i : Int → Value
deriving DecidableEq

/-- A criterion value passed to `Meta.match`: either a single scalar
(`attr != val` comparison in the source) or a list of scalars
(the `isinstance(val, list) and attr in val` branch in the source). -/
inductive CritVal where
  | single : Value → CritVal
  | oneOf : List Value → CritVal
deriving DecidableEq

/-- `Meta.__dict__`: the attribute/value pairs, in insertion order.
Python guarantees the keys are distinct (they come from a kwargs dict). -/
abbrev Meta := List (String × Value)

/-- Criteria as passed to `match`/`filter` as `**kwargs`, in order. -/
abbrev Criteria := List (String × CritVal)

/-- Lookup in the instance `__dict__`: the metadata fields set by
`Meta.__init__`. -/
def lookupField (m : Meta) (key : String) : Option Value :=
  match m with
  | [] => none
  | (k, v) :: rest => if k = key then some v else lookupField rest key

/-- The attribute names `Meta.__getattribute__` resolves on the class when
the key is not in the instance `__dict__`: the methods `Meta` defines
(`match`, `as_dict`, `__init__`, `__str__`, `__repr__`), the class-level
names `__module__`, `__dict__`, `__weakref__` and `__doc__`, and the
attributes inherited from `object` (CPython 3 attribute set). -/
def metaClassAttrs : List String :=
  ["match", "as_dict", "__init__", "__str__", "__repr__", "__module__",
   "__dict__", "__weakref__", "__doc__", "__class__", "__delattr__",
   "__dir__", "__eq__", "__format__", "__ge__", "__getattribute__",
   "__getstate__", "__gt__", "__hash__", "__init_subclass__", "__le__",
   "__lt__", "__ne__", "__new__", "__reduce__", "__reduce_ex__",
   "__setattr__", "__sizeof__", "__subclasshook__"]

/-- What `self.__getattribute__(key)` can return on a `Meta` object: a
metadata value from the instance `__dict__`, or a class attribute (a bound
method or other class-level object) when the key is not an instance
attribute. -/
inductive Attr where
  | val : Value → Attr
  | classAttr : String → Attr
deriving DecidableEq

/-- `self.__getattribute__(key)` at line 86: the instance `__dict__` is
consulted first (methods are non-data descriptors, so instance attributes
shadow them), then the class attributes; a key found in neither raises
`AttributeError` (`none`). -/
def getattribute (m : Meta) (key : String) : Option Attr :=
  match lookupField m key with
  | some v => some (.val v)
  | none => if key ∈ metaClassAttrs then some (.classAttr key) else none

/-- The mismatch test on one criterion, from line 87 of the source:
`attr != val and not (isinstance(val, list) and attr in val)`.
For a scalar criterion the second conjunct is vacuous; for a list
criterion `attr != val` always holds (a scalar is never equal to a list),
so the test reduces to non-membership. -/
def critMismatch (attr : Value) : CritVal → Bool
  | .single v => attr ≠ v
  | .oneOf l => ¬ l.contains attr

/-- Line 87's test applied to the retrieved attribute. A class attribute
(a bound method or other class-level object) is equal to no scalar
criterion value and is a member of no list of scalar values, so it always
mismatches. -/
def attrMismatch : Attr → CritVal → Bool
  | .val a, cv => critMismatch a cv
  | .classAttr _, _ => true

/-- `Meta.match`: iterate the criteria in order; `__getattribute__` raises
(`none`) on a key that is neither a field nor a class attribute, a
mismatch returns `False` at once, and `True` is returned when every
criterion passed. -/
def metaMatch (m : Meta) : Criteria → Option Bool
  | [] => some true
  | (key, val) :: rest =>
    match getattribute m key with
    | none => none
    | some attr => if attrMismatch attr val then some false else metaMatch m rest

/-- Satisfaction of one criterion as the specification words it: a criterion
on field `f` with a single value `v` is satisfied exactly when the field's
value equals `v`; a list-valued criterion is satisfied exactly when the
field's value is a member of that list. Stated over the spec's words, to be
compared with the source-derived `metaMatch`. -/
def critSatisfiedSpec (m : Meta) (p : String × CritVal) : Bool :=
  match p.2 with
  | .single v => lookupField m p.1 = some v
  | .oneOf l =>
    match lookupField m p.1 with
    | some a => l.contains a
    | none => false

/-- `SampleBase`: one opaque data payload plus its metadata. -/
structure SampleBase where
  data : Value
  meta : Meta
deriving DecidableEq

/-- A sample is well formed when its metadata keys are distinct, as Python
guarantees for attributes built from a kwargs dict. -/
abbrev SampleWF (s : SampleBase) : Prop := (s.meta.map Prod.fst).Nodup

/-- The per-field tally `self.info[key]`: observed value to count. -/
abbrev ValCounts := List (Value × Nat)

/-- The frequency index `self.info`: field name to per-value counts. -/
abbrev Info := List (String × ValCounts)

/-- `CorpusBase`: the ordered sample list plus the frequency index. -/
structure CorpusBase where
  samples : List SampleBase
  info : Info
deriving DecidableEq

/-- `CorpusBase.__init__`: empty sample list, empty index. -/
def emptyCorpus : CorpusBase := ⟨[], []⟩

/-- Dict upsert `self.info[key][val] = 1` / `+= 1` on one field's tally. -/
def incrCount (counts : ValCounts) (v : Value) : ValCounts :=
  match counts with
  | [] => [(v, 1)]
  | (w, n) :: rest => if w = v then (w, n + 1) :: rest else (w, n) :: incrCount rest v

/-- One iteration of the loop in `add_sample`: create the field's tally when
absent, then count the observed value. -/
def updateField (info : Info) (key : String) (v : Value) : Info :=
  match info with
  | [] => [(key, [(v, 1)])]
  | (k, counts) :: rest =>
    if k = key then (k, incrCount counts v) :: rest
    else (k, counts) :: updateField rest key v

/-- `CorpusBase.add_sample`: tally every metadata field/value of the sample
into the index and append the sample to the list. -/
def CorpusBase.add_sample (c : CorpusBase) (s : SampleBase) : CorpusBase :=
  { samples := c.samples ++ [s]
  , info := s.meta.foldl (fun inf p => updateField inf p.1 p.2) c.info }

/-- `CorpusBase.add_sample_matching` in state-passing form: the `Except`
error value carries the state of the corpus at the moment the exception
escapes. `match` is evaluated before any mutation, so on error the corpus
state is the input state. -/
def CorpusBase.add_sample_matchingS (c : CorpusBase) (s : SampleBase)
    (crit : Criteria) : Except CorpusBase CorpusBase :=
  match metaMatch s.meta crit with
  | none => .error c
  | some true => .ok (c.add_sample s)
  | some false => .ok c

/-- `CorpusBase.add_sample_matching`, result only: `none` models the
propagated `AttributeError`. -/
def CorpusBase.add_sample_matching (c : CorpusBase) (s : SampleBase)
    (crit : Criteria) : Option CorpusBase :=
  match c.add_sample_matchingS s crit with
  | .ok c2 => some c2
  | .error _ => none

/-- The loop of `CorpusBase.filter`: `add_sample_matching` on each source
sample in order, into the accumulator corpus; an exception aborts the loop. -/
def filterAux (crit : Criteria) : List SampleBase → CorpusBase → Option CorpusBase
  | [], acc => some acc
  | s :: rest, acc =>
    match acc.add_sample_matching s crit with
    | none => none
    | some acc2 => filterAux crit rest acc2

/-- `CorpusBase.filter` in state-passing form: on normal return the pair is
(the source corpus after the call, the new corpus); the error value carries
the source corpus at the moment the exception escapes. The loop only reads
`self.samples` and only mutates `new_corpus`, so `self` is passed through. -/
def CorpusBase.filterS (self : CorpusBase) (crit : Criteria) :
    Except CorpusBase (CorpusBase × CorpusBase) :=
  match filterAux crit self.samples emptyCorpus with
  | none => .error self
  | some nc => .ok (self, nc)

/-- `CorpusBase.filter`, result only: the new corpus, or `none` on the
propagated lookup error. -/
def CorpusBase.filter (self : CorpusBase) (crit : Criteria) : Option CorpusBase :=
  match self.filterS crit with
  | .ok p => some p.2
  | .error _ => none

/-- `CorpusBase.__len__`. -/
def CorpusBase.len (c : CorpusBase) : Nat := c.samples.length

/-- The argument of `CorpusBase.__getitem__`: an integer or a slice
(start/stop, `none` for an omitted bound; step 1). -/
inductive IndexArg where
  | int : Int → IndexArg
  | slice : Option Int → Option Int → IndexArg

/-- The result of `CorpusBase.__getitem__`: one sample, or a list of
samples for a slice. -/
inductive GetResult where
  | one : SampleBase → GetResult
  | many : List SampleBase → GetResult
deriving DecidableEq

/-- Python list indexing `l[i]` for an integer `i`: a negative index counts
from the end; out of range raises `IndexError` (`none`). -/
def pyIndex (l : List SampleBase) (i : Int) : Option SampleBase :=
  let n : Int := l.length
  let j : Int := if i < 0 then i + n else i
  if 0 ≤ j ∧ j < n then l[j.toNat]? else none

/-- Python list slicing `l[a:b]` with step 1: each bound is clamped into
`[0, len]` (negative bounds count from the end); never raises. -/
def pySlice (l : List SampleBase) (a b : Option Int) : List SampleBase :=
  let n : Int := l.length
  let lo : Int := match a with
    | none => 0
    | some x => if x < 0 then max (x + n) 0 else min x n
  let hi : Int := match b with
    | none => n
    | some x => if x < 0 then max (x + n) 0 else min x n
  (l.drop lo.toNat).take (hi - lo).toNat

/-- `CorpusBase.__getitem__`: `self.samples[r]` for an integer or slice
argument; only integer access can raise. -/
def CorpusBase.getitem (c : CorpusBase) (r : IndexArg) : Option GetResult :=
  match r with
  | .int i => (pyIndex c.samples i).map GetResult.one
  | .slice a b => some (.many (pySlice c.samples a b))

/-- Corpora reachable from an empty `CorpusBase` by `add_sample`,
`add_sample_matching` and `filter`, with well-formed samples (distinct
metadata keys, as Python dicts guarantee). -/
inductive Reachable : CorpusBase → Prop where
  | empty : Reachable emptyCorpus
  | add {c : CorpusBase} {s : SampleBase} :
      Reachable c → SampleWF s → Reachable (c.add_sample s)
  | addMatching {c c2 : CorpusBase} {s : SampleBase} {crit : Criteria} :
      Reachable c → SampleWF s → c.add_sample_matching s crit = some c2 →
      Reachable c2
  | filtered {c c2 : CorpusBase} {crit : Criteria} :
      Reachable c → c.filter crit = some c2 → Reachable c2

/-- The count stored in one field's tally for value `v` (0 when absent). -/
def valCount : ValCounts → Value → Nat
  | [], _ => 0
  | (w, n) :: rest, v => if w = v then n else valCount rest v

/-- The count stored in the frequency index for field `f`, value `v`
(0 when the field or the value was never observed). -/
def infoCount (info : Info) (f : String) (v : Value) : Nat :=
  match info with
  | [] => 0
  | (k, counts) :: rest => if k = f then valCount counts v else infoCount rest f v

/-- The number of samples whose metadata has field `f` with value `v`. -/
def metaCount (l : List SampleBase) (f : String) (v : Value) : Nat :=
  l.countP (fun s => lookupField s.meta f = some v)

/-- The sum of the counts in one field's tally. -/
def sumCounts : ValCounts → Nat
  | [] => 0
  | (_, n) :: rest => n + sumCounts rest

/-- The sum of the counts stored in the frequency index for field `f`. -/
def fieldTotal (info : Info) (f : String) : Nat :=
  match info with
  | [] => 0
  | (k, counts) :: rest => if k = f then sumCounts counts else fieldTotal rest f

/-- Whether a sample's metadata makes `match` return `True` for `crit`. -/
def matchesCriteria (crit : Criteria) (s : SampleBase) : Bool :=
  metaMatch s.meta crit = some true

/-- The tally invariant: the frequency index is exactly the multiset tally
of the contained samples' metadata, per (field, value) pair and per field
in total. -/
def Inv (c : CorpusBase) : Prop :=
  (∀ f v, infoCount c.info f v = metaCount c.samples f v) ∧
  (∀ f, fieldTotal c.info f =
    c.samples.countP (fun s => (lookupField s.meta f).isSome))

/-- The payload of an `AudioSample`: a 1D array (single channel) or a 2D
array whose columns are the channels (the scipy wavfile convention). -/
inductive PyData where
  | d1 : List Int → PyData
  | d2 : List (List Int) → PyData

/-- `AudioSample`: payload, sampling frequency and metadata. -/
structure AudioSample where
  data : PyData
  fs : Int
  meta : Meta

/-- The observable outcome of `AudioSample.plot`: the caught-ImportError
warning, an uncaught `NameError` on the given name, or a successful render
of the given number of channel spectrograms. -/
inductive PlotOutcome where
  | importWarning : PlotOutcome
  | nameError : String → PlotOutcome
  | rendered : Nat → PlotOutcome
deriving DecidableEq

/-- `AudioSample.plot`, traced from the source. A missing matplotlib is
caught and downgraded to a printed warning. When matplotlib is available:
the local name `data` is bound only inside the `ndim == 1` branch, so a 2D
payload reaches `data.shape[1]` with `data` unbound and raises `NameError`
on `data`; a 1D payload is reshaped and then reaches `np.ceil`, but the
module never imports numpy, so `np` raises `NameError`. The per-channel
`plt.specgram` loop is unreachable. -/
def AudioSample.plot (mplAvailable : Bool) (a : AudioSample) : PlotOutcome :=
  if mplAvailable then
    match a.data with
    | .d1 _ => .nameError "np"
    | .d2 _ => .nameError "data"
  else .importWarning

/-- Frame predicate for `filterS`: the source-corpus state carried in the
outcome (normal or exceptional) has the same sample list and the same
frequency index as the given corpus. -/
def sourceUntouched (c : CorpusBase) :
    Except CorpusBase (CorpusBase × CorpusBase) → Prop
  | .error e => e.samples = c.samples ∧ e.info = c.info
  | .ok p => p.1.samples = c.samples ∧ p.1.info = c.info

/-- The corpus obtained by `add_sample` on each element of `l` in order,
starting from an empty corpus. -/
def corpusOfList (l : List SampleBase) : CorpusBase :=
  l.foldl CorpusBase.add_sample emptyCorpus

/-- The four artificial samples of the module docstring example. -/
def sAlice1 : SampleBase :=
  ⟨Value.i 99, [("speaker", Value.s "alice"), ("sex", Value.s "female"),
    ("age", Value.i 37), ("number", Value.s "one")]⟩

/-- Second alice sample of the docstring example. -/
def sAlice2 : SampleBase :=
  ⟨Value.i 21, [("speaker", Value.s "alice"), ("sex", Value.s "female"),
    ("age", Value.i 37), ("number", Value.s "two")]⟩

/-- First bob sample of the docstring example. -/
def sBob1 : SampleBase :=
  ⟨Value.i 102, [("speaker", Value.s "bob"), ("sex", Value.s "male"),
    ("age", Value.i 48), ("number", Value.s "one")]⟩

/-- Second bob sample of the docstring example. -/
def sBob2 : SampleBase :=
  ⟨Value.i 207, [("speaker", Value.s "bob"), ("sex", Value.s "male"),
    ("age", Value.i 48), ("number", Value.s "two")]⟩

/-- The docstring example corpus: the four samples added in order. -/
def exampleCorpus : CorpusBase :=
  (((emptyCorpus.add_sample sAlice1).add_sample sAlice2).add_sample
    sBob1).add_sample sBob2

/-- A sample whose only metadata field is `a`. -/
def sampleA : SampleBase := ⟨Value.i 0, [("a", Value.i 1)]⟩

/-- A sample whose only metadata field is `b`, so that `a` and `b` each
appear in only one of the two samples of `corpusDisjoint`. -/
def sampleB : SampleBase := ⟨Value.i 1, [("b", Value.i 2)]⟩

/-- A one-sample corpus. -/
def corpusOne : CorpusBase := emptyCorpus.add_sample sampleA

/-- A two-sample corpus whose samples have disjoint metadata fields. -/
def corpusDisjoint : CorpusBase :=
  (emptyCorpus.add_sample sampleA).add_sample sampleB

/-- The male-only criteria of the docstring example. -/
def critMale : Criteria := [("sex", CritVal.single (Value.s "male"))]

/-- The corpus produced by filtering the docstring example corpus with the
male-only criteria. -/
def filteredMale : CorpusBase :=
  (exampleCorpus.filter critMale).getD emptyCorpus

/-! ### Tally lemmas -/

theorem valCount_incrCount (counts : ValCounts) (v w : Value) :
    valCount (incrCount counts v) w = valCount counts w + (if w = v then 1 else 0) := by
  induction counts with
  | nil =>
      simp only [incrCount, valCount]
      by_cases h : v = w
      · simp [h]
      · have h2 : ¬ w = v := fun hh => h hh.symm
        simp [h, h2]
  | cons p rest ih =>
      obtain ⟨u, n⟩ := p
      by_cases huv : u = v
      · subst huv
        simp only [incrCount, if_pos rfl, valCount]
        by_cases huw : u = w
        · subst huw
          simp
        · have h2 : ¬ w = u := fun hh => huw hh.symm
          simp [huw, h2]
      · simp only [incrCount, if_neg huv, valCount]
        by_cases huw : u = w
        · have h3 : ¬ w = v := fun hh => huv (huw.trans hh)
          simp [huw, h3]
        · simp [huw, ih]

theorem sumCounts_incrCount (counts : ValCounts) (v : Value) :
    sumCounts (incrCount counts v) = sumCounts counts + 1 := by
  induction counts with
  | nil => simp [incrCount, sumCounts]
  | cons p rest ih =>
      obtain ⟨u, n⟩ := p
      by_cases huv : u = v <;> simp [incrCount, sumCounts, huv, ih] <;> omega

theorem infoCount_updateField (info : Info) (k : String) (v : Value)
    (f : String) (w : Value) :
    infoCount (updateField info k v) f w =
      infoCount info f w + (if f = k ∧ w = v then 1 else 0) := by
  induction info with
  | nil =>
      simp only [updateField, infoCount]
      by_cases hfk : k = f
      · subst hfk
        simp only [if_pos rfl, valCount]
        by_cases hvw : v = w
        · simp [hvw]
        · have h2 : ¬ w = v := fun hh => hvw hh.symm
          simp [hvw, h2]
      · have h2 : ¬ f = k := fun hh => hfk hh.symm
        simp [hfk, h2]
  | cons p rest ih =>
      obtain ⟨u, counts⟩ := p
      by_cases huk : u = k
      · subst huk
        simp only [updateField, if_pos rfl, infoCount]
        by_cases huf : u = f
        · subst huf
          simp [valCount_incrCount]
        · have h2 : ¬ f = u := fun hh => huf hh.symm
          simp [huf, h2]
      · simp only [updateField, if_neg huk, infoCount]
        by_cases huf : u = f
        · have h2 : ¬ f = k := fun hh => huk (huf.trans hh)
          simp [huf, h2]
        · simp [huf, ih]

theorem fieldTotal_updateField (info : Info) (k : String) (v : Value)
    (f : String) :
    fieldTotal (updateField info k v) f =
      fieldTotal info f + (if f = k then 1 else 0) := by
  induction info with
  | nil =>
      simp only [updateField, fieldTotal]
      by_cases hfk : k = f
      · subst hfk
        simp [sumCounts]
      · have h2 : ¬ f = k := fun hh => hfk hh.symm
        simp [hfk, h2]
  | cons p rest ih =>
      obtain ⟨u, counts⟩ := p
      by_cases huk : u = k
      · subst huk
        simp only [updateField, if_pos rfl, fieldTotal]
        by_cases huf : u = f
        · subst huf
          simp [sumCounts_incrCount]
        · have h2 : ¬ f = u := fun hh => huf hh.symm
          simp [huf, h2]
      · simp only [updateField, if_neg huk, fieldTotal]
        by_cases huf : u = f
        · have h2 : ¬ f = k := fun hh => huk (huf.trans hh)
          simp [huf, h2]
        · simp [huf, ih]

theorem infoCount_foldl (L : List (String × Value)) (info : Info)
    (f : String) (w : Value) :
    infoCount (L.foldl (fun inf p => updateField inf p.1 p.2) info) f w =
      infoCount info f w +
        L.countP (fun p => decide (p.1 = f) && decide (p.2 = w)) := by
  induction L generalizing info with
  | nil => simp
  | cons p rest ih =>
      simp only [List.foldl_cons, List.countP_cons, ih, infoCount_updateField]
      by_cases h1 : f = p.1 <;> by_cases h2 : w = p.2 <;>
        simp [h1, h2, eq_comm] <;> omega

theorem fieldTotal_foldl (L : List (String × Value)) (info : Info)
    (f : String) :
    fieldTotal (L.foldl (fun inf p => updateField inf p.1 p.2) info) f =
      fieldTotal info f + L.countP (fun p => decide (p.1 = f)) := by
  induction L generalizing info with
  | nil => simp
  | cons p rest ih =>
      simp only [List.foldl_cons, List.countP_cons, ih, fieldTotal_updateField]
      by_cases h1 : f = p.1 <;> simp [h1, eq_comm] <;> omega

theorem lookupField_eq_none_of_not_mem (m : Meta) (f : String)
    (h : f ∉ m.map Prod.fst) : lookupField m f = none := by
  induction m with
  | nil => rfl
  | cons p rest ih =>
      simp only [List.map_cons, List.mem_cons, not_or] at h
      simp [lookupField, Ne.symm h.1, ih h.2]

theorem countP_pair_of_nodup (m : Meta) (h : (m.map Prod.fst).Nodup)
    (f : String) (w : Value) :
    m.countP (fun p => decide (p.1 = f) && decide (p.2 = w)) =
      (if lookupField m f = some w then 1 else 0) := by
  induction m with
  | nil => simp [lookupField]
  | cons p rest ih =>
      obtain ⟨u, v⟩ := p
      simp only [List.map_cons, List.nodup_cons] at h
      by_cases huf : u = f
      · subst huf
        have hz : rest.countP (fun p => decide (p.1 = u) && decide (p.2 = w)) = 0 := by
          rw [List.countP_eq_zero]
          intro q hq
          simp only [Bool.and_eq_true, decide_eq_true_eq]
          intro hc
          exact h.1 (hc.1 ▸ List.mem_map_of_mem Prod.fst hq)
        by_cases hvw : v = w <;>
          simp [List.countP_cons, lookupField, hvw, hz]
      · simp [List.countP_cons, lookupField, huf, ih h.2]

theorem countP_key_of_nodup (m : Meta) (h : (m.map Prod.fst).Nodup)
    (f : String) :
    m.countP (fun p => decide (p.1 = f)) =
      (if (lookupField m f).isSome then 1 else 0) := by
  induction m with
  | nil => simp [lookupField]
  | cons p rest ih =>
      obtain ⟨u, v⟩ := p
      simp only [List.map_cons, List.nodup_cons] at h
      by_cases huf : u = f
      · subst huf
        have hz : rest.countP (fun p => decide (p.1 = u)) = 0 := by
          rw [List.countP_eq_zero]
          intro q hq
          simp only [decide_eq_true_eq]
          intro hc
          exact h.1 (hc ▸ List.mem_map_of_mem Prod.fst hq)
        simp [List.countP_cons, lookupField, hz]
      · simp [List.countP_cons, lookupField, huf, ih h.2]

/-! ### Matching lemmas -/

theorem critMismatch_eq_not_spec (m : Meta) (k : String) (cv : CritVal)
    (a : Value) (ha : lookupField m k = some a) :
    critMismatch a cv = ! critSatisfiedSpec m (k, cv) := by
  cases cv with
  | single v => simp [critMismatch, critSatisfiedSpec, ha]
  | oneOf l => simp [critMismatch, critSatisfiedSpec, ha]

theorem getattribute_val {m : Meta} {k : String} {a : Value}
    (ha : lookupField m k = some a) : getattribute m k = some (Attr.val a) := by
  simp [getattribute, ha]

theorem lookupField_none_of_getattribute_none {m : Meta} {k : String}
    (h : getattribute m k = none) : lookupField m k = none := by
  unfold getattribute at h
  cases hl : lookupField m k with
  | none => rfl
  | some a => rw [hl] at h; simp at h

theorem metaMatch_eq_all (m : Meta) (crit : Criteria)
    (h : ∀ p ∈ crit, (lookupField m p.1).isSome) :
    metaMatch m crit = some (crit.all (critSatisfiedSpec m)) := by
  induction crit with
  | nil => simp [metaMatch]
  | cons p rest ih =>
      obtain ⟨k, cv⟩ := p
      obtain ⟨a, ha⟩ :=
        Option.isSome_iff_exists.mp (h _ (List.mem_cons_self _ _))
      simp only [metaMatch, getattribute_val ha, attrMismatch, List.all_cons]
      simp only [critMismatch_eq_not_spec m k cv a ha]
      by_cases hs : critSatisfiedSpec m (k, cv) = true
      · simp [hs, ih (fun q hq => h q (List.mem_cons_of_mem _ hq))]
      · rw [Bool.not_eq_true] at hs
        simp [hs]

theorem metaMatch_none_exists {m : Meta} {crit : Criteria}
    (h : metaMatch m crit = none) : ∃ p ∈ crit, lookupField m p.1 = none := by
  induction crit with
  | nil => simp [metaMatch] at h
  | cons p rest ih =>
      obtain ⟨k, cv⟩ := p
      cases hg : getattribute m k with
      | none =>
          exact ⟨(k, cv), List.mem_cons_self _ _,
            lookupField_none_of_getattribute_none hg⟩
      | some attr =>
          simp only [metaMatch, hg] at h
          by_cases hm : attrMismatch attr cv = true
          · simp [hm] at h
          · rw [Bool.not_eq_true] at hm
            simp only [hm, Bool.false_eq_true, if_false] at h
            obtain ⟨q, hq, hq2⟩ := ih h
            exact ⟨q, List.mem_cons_of_mem _ hq, hq2⟩

theorem add_sample_samples (c : CorpusBase) (s : SampleBase) :
    (c.add_sample s).samples = c.samples ++ [s] := rfl

theorem add_sample_matching_cases {c c2 : CorpusBase} {s : SampleBase}
    {crit : Criteria} (h : c.add_sample_matching s crit = some c2) :
    (metaMatch s.meta crit = some true ∧ c2 = c.add_sample s) ∨
    (metaMatch s.meta crit = some false ∧ c2 = c) := by
  unfold CorpusBase.add_sample_matching CorpusBase.add_sample_matchingS at h
  cases hm : metaMatch s.meta crit with
  | none => rw [hm] at h; simp at h
  | some b => rw [hm] at h; cases b <;> simp_all

theorem filterAux_samples (crit : Criteria) (l : List SampleBase)
    (acc nc : CorpusBase) (h : filterAux crit l acc = some nc) :
    nc.samples = acc.samples ++ l.filter (matchesCriteria crit) := by
  induction l generalizing acc with
  | nil =>
      simp only [filterAux, Option.some_inj] at h
      simp [h.symm]
  | cons s rest ih =>
      simp only [filterAux] at h
      cases hm : acc.add_sample_matching s crit with
      | none => rw [hm] at h; simp at h
      | some acc2 =>
          rw [hm] at h
          rcases add_sample_matching_cases hm with ⟨hmt, he⟩ | ⟨hmt, he⟩
          · have hp : matchesCriteria crit s = true := by
              simp [matchesCriteria, hmt]
            rw [List.filter_cons_of_pos hp]
            rw [ih acc2 h, he, add_sample_samples]
            simp
          · have hp : matchesCriteria crit s = false := by
              simp [matchesCriteria, hmt]
            rw [List.filter_cons_of_neg (by simp [hp])]
            rw [ih acc2 h, he]

theorem Inv_empty : Inv emptyCorpus := by
  constructor
  · intro f v
    simp [emptyCorpus, infoCount, metaCount]
  · intro f
    simp [emptyCorpus, fieldTotal]

theorem Inv_add_sample {c : CorpusBase} {s : SampleBase}
    (hInv : Inv c) (hs : SampleWF s) : Inv (c.add_sample s) := by
  constructor
  · intro f v
    show infoCount (s.meta.foldl (fun inf p => updateField inf p.1 p.2) c.info) f v =
      metaCount (c.samples ++ [s]) f v
    rw [infoCount_foldl, countP_pair_of_nodup s.meta hs, hInv.1 f v]
    unfold metaCount
    rw [List.countP_append]
    simp [List.countP_cons]
  · intro f
    show fieldTotal (s.meta.foldl (fun inf p => updateField inf p.1 p.2) c.info) f =
      (c.samples ++ [s]).countP (fun t => (lookupField t.meta f).isSome)
    rw [fieldTotal_foldl, countP_key_of_nodup s.meta hs, hInv.2 f]
    rw [List.countP_append]
    simp [List.countP_cons]

theorem filterAux_inv (crit : Criteria) (l : List SampleBase)
    (acc nc : CorpusBase) (hInv : Inv acc) (hwf : ∀ s ∈ l, SampleWF s)
    (h : filterAux crit l acc = some nc) : Inv nc := by
  induction l generalizing acc with
  | nil =>
      simp only [filterAux, Option.some_inj] at h
      exact h ▸ hInv
  | cons s rest ih =>
      simp only [filterAux] at h
      cases hm : acc.add_sample_matching s crit with
      | none => rw [hm] at h; simp at h
      | some acc2 =>
          rw [hm] at h
          have hwf2 : ∀ t ∈ rest, SampleWF t :=
            fun t ht => hwf t (List.mem_cons_of_mem _ ht)
          rcases add_sample_matching_cases hm with ⟨_, he⟩ | ⟨_, he⟩
          · exact ih acc2
              (he ▸ Inv_add_sample hInv (hwf s (List.mem_cons_self _ _))) hwf2 h
          · exact ih acc2 (he ▸ hInv) hwf2 h

theorem filter_eq_some {c nc : CorpusBase} {crit : Criteria}
    (h : c.filter crit = some nc) :
    filterAux crit c.samples emptyCorpus = some nc := by
  unfold CorpusBase.filter CorpusBase.filterS at h
  cases hf : filterAux crit c.samples emptyCorpus with
  | none => rw [hf] at h; simp at h
  | some nc2 => rw [hf] at h; simp_all

theorem reachable_wf {c : CorpusBase} (h : Reachable c) :
    ∀ s ∈ c.samples, SampleWF s := by
  induction h with
  | empty => intro s hs; cases hs
  | add _ hwf ih =>
      intro t ht
      rw [add_sample_samples] at ht
      rcases List.mem_append.mp ht with h1 | h2
      · exact ih t h1
      · rw [List.mem_singleton.mp h2]; exact hwf
  | addMatching _ hwf hm ih =>
      rcases add_sample_matching_cases hm with ⟨_, he⟩ | ⟨_, he⟩
      · subst he
        intro t ht
        rw [add_sample_samples] at ht
        rcases List.mem_append.mp ht with h1 | h2
        · exact ih t h1
        · rw [List.mem_singleton.mp h2]; exact hwf
      · subst he; exact ih
  | filtered _ hf ih =>
      intro t ht
      rw [filterAux_samples _ _ _ _ (filter_eq_some hf)] at ht
      simp only [emptyCorpus, List.nil_append] at ht
      exact ih t (List.mem_of_mem_filter ht)

theorem reachable_inv {c : CorpusBase} (h : Reachable c) : Inv c := by
  induction h with
  | empty => exact Inv_empty
  | add _ hwf ih => exact Inv_add_sample ih hwf
  | addMatching _ hwf hm ih =>
      rcases add_sample_matching_cases hm with ⟨_, he⟩ | ⟨_, he⟩
      · exact he ▸ Inv_add_sample ih hwf
      · exact he ▸ ih
  | filtered hr hf ih =>
      exact filterAux_inv _ _ _ _ Inv_empty (reachable_wf hr) (filter_eq_some hf)

theorem corpusOfList_samples (l : List SampleBase) :
    (corpusOfList l).samples = l := by
  suffices h : ∀ c : CorpusBase, (l.foldl CorpusBase.add_sample c).samples = c.samples ++ l by
    simpa [corpusOfList, emptyCorpus] using h emptyCorpus
  induction l with
  | nil => simp
  | cons s rest ih =>
      intro c
      simp [List.foldl_cons, ih, add_sample_samples]

/-! ### Claim theorems -/

/-- Claim C1: for every Meta object and every criteria mapping whose keys
are all fields of the object, match returns True exactly when every
criterion is satisfied — a single-valued criterion by equality of the
field's value, a list-valued one by membership — and returns False (not an
error) as soon as some criterion is unsatisfied. -/
theorem match_true_iff_all_criteria_satisfied (m : Meta) (crit : Criteria)
    (h : ∀ p ∈ crit, (lookupField m p.1).isSome) :
    (metaMatch m crit = some true ↔ ∀ p ∈ crit, critSatisfiedSpec m p = true) ∧
    ((∃ p ∈ crit, critSatisfiedSpec m p = false) → metaMatch m crit = some false) := by
  rw [metaMatch_eq_all m crit h]
  constructor
  · simp [List.all_eq_true]
  · rintro ⟨p, hp, hf⟩
    have : crit.all (critSatisfiedSpec m) = false := by
      rw [List.all_eq_false]
      exact ⟨p, hp, by simp [hf]⟩
    rw [this]

/-- Claim C1 witness: the spec's `number` example, with a single-field
metadata object and a list-valued criterion whose keys are all fields. -/
theorem match_true_iff_all_criteria_satisfied_witness :
    (∀ p ∈ ([("number", CritVal.oneOf [Value.s "one", Value.s "two"])] : Criteria),
      (lookupField [("number", Value.s "one")] p.1).isSome) ∧
    metaMatch [("number", Value.s "one")]
      [("number", CritVal.oneOf [Value.s "one", Value.s "two"])] = some true :=
  ⟨by decide,
    (match_true_iff_all_criteria_satisfied [("number", Value.s "one")]
      [("number", CritVal.oneOf [Value.s "one", Value.s "two"])]
      (by decide)).1.mpr (by decide)⟩

/-- Claim C3: for every corpus reachable from an empty CorpusBase by
add_sample, add_sample_matching and filter, the frequency index is exactly
the multiset tally of the contained samples' metadata: the index count for
(f, v) equals the number of contained samples whose metadata has field f
with value v. -/
theorem reachable_index_is_tally {c : CorpusBase} (h : Reachable c) :
    ∀ f v, infoCount c.info f v = metaCount c.samples f v :=
  (reachable_inv h).1

/-- Claim C3 witness: the docstring example corpus is reachable and its
index count for sex = male agrees with the tally over the samples. -/
theorem reachable_index_is_tally_witness :
    Reachable exampleCorpus ∧
    infoCount exampleCorpus.info "sex" (Value.s "male") =
      metaCount exampleCorpus.samples "sex" (Value.s "male") :=
  have hr : Reachable exampleCorpus :=
    .add (.add (.add (.add .empty (by decide)) (by decide)) (by decide)) (by decide)
  ⟨hr, reachable_index_is_tally hr "sex" (Value.s "male")⟩

/-! ### Index and slice lemmas -/

theorem pyIndex_ofNat (l : List SampleBase) (i : ℕ) : pyIndex l i = l[i]? := by
  have h0 : ¬ ((i : Int) < 0) := by omega
  by_cases h : i < l.length
  · have hc : 0 ≤ ((i : Int)) ∧ (i : Int) < (l.length : Int) := by
      constructor <;> omega
    simp [pyIndex, h0, hc]
  · have hc : ¬ (0 ≤ ((i : Int)) ∧ (i : Int) < (l.length : Int)) := by
      intro hh
      omega
    simp [pyIndex, h0, hc]

theorem pyIndex_ge (l : List SampleBase) (i : Int)
    (h : (l.length : Int) ≤ i) : pyIndex l i = none := by
  have h0 : ¬ i < 0 := by omega
  have hc : ¬ (0 ≤ i ∧ i < (l.length : Int)) := by
    intro hh
    omega
  simp [pyIndex, h0, hc]

theorem pySlice_nat (l : List SampleBase) (a b : ℕ) (hab : a ≤ b)
    (hb : b ≤ l.length) :
    pySlice l (some a) (some b) = (l.drop a).take (b - a) := by
  have ha0 : ¬ ((a : Int) < 0) := by omega
  have hb0 : ¬ ((b : Int) < 0) := by omega
  have hmina : min ((a : Int)) ((l.length : Int)) = (a : Int) := by omega
  have hminb : min ((b : Int)) ((l.length : Int)) = (b : Int) := by omega
  simp only [pySlice, ha0, if_false, hb0, hmina, hminb]
  have h1 : ((a : Int)).toNat = a := by omega
  have h2 : ((b : Int) - (a : Int)).toNat = b - a := by omega
  rw [h1, h2]

/-! ### Remaining claim theorems -/

/-- Claim C4: a successful filter returns a corpus whose sample sequence is
exactly the matching subsequence of the source's samples, in source order,
and whose length is at most the source's length. -/
theorem filter_samples_eq_filter {c nc : CorpusBase} {crit : Criteria}
    (h : c.filter crit = some nc) :
    nc.samples = c.samples.filter (matchesCriteria crit) ∧
    nc.samples.length ≤ c.samples.length := by
  have h2 := filterAux_samples crit c.samples emptyCorpus nc (filter_eq_some h)
  simp only [emptyCorpus, List.nil_append] at h2
  exact ⟨h2, h2 ▸ List.length_filter_le _ _⟩

/-- Claim C4 witness: filtering the docstring example corpus by sex = male
yields exactly the matching subsequence, of length at most the source's. -/
theorem filter_samples_eq_filter_witness :
    exampleCorpus.filter critMale = some filteredMale ∧
    filteredMale.samples = exampleCorpus.samples.filter (matchesCriteria critMale) ∧
    filteredMale.samples.length ≤ exampleCorpus.samples.length :=
  have h : exampleCorpus.filter critMale = some filteredMale := by decide
  ⟨h, (filter_samples_eq_filter h).1, (filter_samples_eq_filter h).2⟩

/-- Claim C5 counterexample: two samples with disjoint metadata fields. The
field `a` appears across the added samples, yet the sum of the index counts
for `a` is 1 while the corpus length is 2. -/
theorem field_sum_ne_length_counterexample :
    (∃ s ∈ corpusDisjoint.samples, (lookupField s.meta "a").isSome) ∧
    fieldTotal corpusDisjoint.info "a" = 1 ∧
    corpusDisjoint.len = 2 := by
  decide

/-- Claim C5 (amended): for every field f present in the metadata of every
contained sample of a reachable corpus, the sum over all observed values of
f's frequency-index counts equals the corpus length; a field missing from
some samples sums to the number of samples that have it instead. -/
theorem field_sum_eq_length_of_field_everywhere {c : CorpusBase} (f : String)
    (h : Reachable c) (hall : ∀ s ∈ c.samples, (lookupField s.meta f).isSome) :
    fieldTotal c.info f = c.len := by
  rw [(reachable_inv h).2 f]
  unfold CorpusBase.len
  exact List.countP_eq_length.mpr (fun s hs => by simp [hall s hs])

/-- Claim C5 witness: every sample of the docstring example corpus has the
field sex, and the sex counts sum to the corpus length. -/
theorem field_sum_eq_length_of_field_everywhere_witness :
    Reachable exampleCorpus ∧
    (∀ s ∈ exampleCorpus.samples, (lookupField s.meta "sex").isSome) ∧
    fieldTotal exampleCorpus.info "sex" = exampleCorpus.len :=
  have hr : Reachable exampleCorpus :=
    .add (.add (.add (.add .empty (by decide)) (by decide)) (by decide)) (by decide)
  ⟨hr, by decide, field_sum_eq_length_of_field_everywhere "sex" hr (by decide)⟩

/-- Claim C6: when the criteria keys are all fields of the sample's
metadata, add_sample_matching never errors, has exactly the effect of
add_sample when match is True, and leaves the corpus unchanged when match
is False. -/
theorem add_sample_matching_add_or_noop (c : CorpusBase) (s : SampleBase)
    (crit : Criteria) (h : ∀ p ∈ crit, (lookupField s.meta p.1).isSome) :
    (c.add_sample_matching s crit).isSome ∧
    (metaMatch s.meta crit = some true →
      c.add_sample_matching s crit = some (c.add_sample s)) ∧
    (metaMatch s.meta crit = some false →
      c.add_sample_matching s crit = some c) := by
  have hm := metaMatch_eq_all s.meta crit h
  unfold CorpusBase.add_sample_matching CorpusBase.add_sample_matchingS
  rw [hm]
  cases crit.all (critSatisfiedSpec s.meta) <;> simp

/-- Claim C6 witness: sBob1 matches the male-only criteria, whose single
key is a field of the metadata, so add_sample_matching adds it exactly as
add_sample would. -/
theorem add_sample_matching_add_or_noop_witness :
    (∀ p ∈ critMale, (lookupField sBob1.meta p.1).isSome) ∧
    metaMatch sBob1.meta critMale = some true ∧
    emptyCorpus.add_sample_matching sBob1 critMale =
      some (emptyCorpus.add_sample sBob1) :=
  ⟨by decide, by decide,
    (add_sample_matching_add_or_noop emptyCorpus sBob1 critMale
      (by decide)).2.1 (by decide)⟩

/-- Claim C7 counterexample: on a one-sample corpus, slice access entirely
beyond the current length returns an empty selection instead of failing
with an out-of-range error. -/
theorem slice_beyond_length_no_error_counterexample :
    corpusOne.len = 1 ∧
    corpusOne.getitem (IndexArg.slice (some 5) (some 10)) =
      some (GetResult.many []) := by
  decide

/-- Claim C7 (amended): after adding s1..sn in order to an empty corpus,
len equals n; integer access at 0 ≤ i < n returns the i-th added sample and
fails with the out-of-range error at i ≥ n; slice access returns the
selected samples in order and never fails — bounds beyond the current
length are clamped, yielding a shorter or empty selection. -/
theorem getitem_len_index_slice (l : List SampleBase) :
    (corpusOfList l).len = l.length ∧
    (∀ i : ℕ, (corpusOfList l).getitem (.int i) = (l[i]?).map GetResult.one) ∧
    (∀ i : Int, (l.length : Int) ≤ i →
      (corpusOfList l).getitem (.int i) = none) ∧
    (∀ a b : ℕ, a ≤ b → b ≤ l.length →
      (corpusOfList l).getitem (.slice (some a) (some b)) =
        some (.many ((l.drop a).take (b - a)))) ∧
    (∀ a b : Option Int, (corpusOfList l).getitem (.slice a b) ≠ none) := by
  refine ⟨?_, ?_, ?_, ?_, ?_⟩
  · simp [CorpusBase.len, corpusOfList_samples]
  · intro i
    simp [CorpusBase.getitem, corpusOfList_samples, pyIndex_ofNat]
  · intro i h
    simp [CorpusBase.getitem, corpusOfList_samples, pyIndex_ge l i h]
  · intro a b hab hb
    simp [CorpusBase.getitem, corpusOfList_samples, pySlice_nat l a b hab hb]
  · intro a b
    simp [CorpusBase.getitem]

/-- Claim C7 witness: on a two-sample corpus, position 1 returns the second
added sample, position 5 fails, the slice 0:1 returns the first sample, and
the slice 5:10 cannot fail. -/
theorem getitem_len_index_slice_witness :
    (corpusOfList [sampleA, sampleB]).len = 2 ∧
    (corpusOfList [sampleA, sampleB]).getitem (.int ((1 : ℕ) : Int)) =
      (([sampleA, sampleB][1]?).map GetResult.one) ∧
    ((2 : Int) ≤ 5 ∧
      (corpusOfList [sampleA, sampleB]).getitem (.int 5) = none) ∧
    ((1 : ℕ) ≤ 1 ∧ (1 : ℕ) ≤ 2 ∧
      (corpusOfList [sampleA, sampleB]).getitem (.slice (some 0) (some 1)) =
        some (.many (([sampleA, sampleB].drop 0).take (1 - 0)))) ∧
    (corpusOfList [sampleA, sampleB]).getitem
      (.slice (some 5) (some 10)) ≠ none :=
  ⟨(getitem_len_index_slice [sampleA, sampleB]).1,
    (getitem_len_index_slice [sampleA, sampleB]).2.1 1,
    ⟨by decide, (getitem_len_index_slice [sampleA, sampleB]).2.2.1 5 (by decide)⟩,
    ⟨by decide, by decide,
      (getitem_len_index_slice [sampleA, sampleB]).2.2.2.1 0 1 (by decide) (by decide)⟩,
    (getitem_len_index_slice [sampleA, sampleB]).2.2.2.2 (some 5) (some 10)⟩

/-- Claim C8: filter leaves the source corpus completely unchanged: whether
the call returns the new corpus or propagates the lookup error, the source
corpus state carried out of the call has the same sample sequence and the
same frequency index as before. -/
theorem filter_source_untouched (c : CorpusBase) (crit : Criteria) :
    sourceUntouched c (c.filterS crit) := by
  unfold CorpusBase.filterS
  cases filterAux crit c.samples emptyCorpus <;> exact ⟨rfl, rfl⟩

/-- Claim C9: evaluation of plot as the source has it. With matplotlib
available, a 1D payload raises NameError on `np` (numpy is never imported)
and a 2D payload raises NameError on the unbound local `data`; no
spectrogram is ever rendered. Only the missing-matplotlib case degrades to
a warning. -/
theorem plot_name_error_eval :
    AudioSample.plot true ⟨PyData.d1 [0, 1], 16000, []⟩ =
      PlotOutcome.nameError "np" ∧
    AudioSample.plot true ⟨PyData.d2 [[0], [1]], 16000, []⟩ =
      PlotOutcome.nameError "data" ∧
    AudioSample.plot false ⟨PyData.d1 [0, 1], 16000, []⟩ =
      PlotOutcome.importWarning :=
  ⟨rfl, rfl, rfl⟩

/-- Claim C10: if add_sample_matching propagates the unknown-field lookup
error, the error was raised before any append or index update: the corpus
state carried out of the failed call equals the input state, and the
failure implies some criterion key is absent from the sample's metadata. -/
theorem add_sample_matching_error_atomic (c c2 : CorpusBase) (s : SampleBase)
    (crit : Criteria) (h : c.add_sample_matchingS s crit = .error c2) :
    c2.samples = c.samples ∧ c2.info = c.info ∧
    ∃ p ∈ crit, lookupField s.meta p.1 = none := by
  unfold CorpusBase.add_sample_matchingS at h
  cases hm : metaMatch s.meta crit with
  | none =>
      rw [hm] at h
      simp only [Except.error.injEq] at h
      subst h
      exact ⟨rfl, rfl, metaMatch_none_exists hm⟩
  | some b =>
      rw [hm] at h
      cases b <;> simp at h

/-- Claim C10 witness: adding sampleA under a criteria naming the unknown
field b errors out of add_sample_matching with the corpus unchanged. -/
theorem add_sample_matching_error_atomic_witness :
    corpusOne.add_sample_matchingS sampleA [("b", CritVal.single (Value.i 3))] =
      Except.error corpusOne ∧
    (∃ p ∈ ([("b", CritVal.single (Value.i 3))] : Criteria),
      lookupField sampleA.meta p.1 = none) :=
  ⟨rfl,
    (add_sample_matching_error_atomic corpusOne corpusOne sampleA
      [("b", CritVal.single (Value.i 3))] rfl).2.2⟩

end PyRoom
